import Mathlib

/-!
Verification of the eteam energy scheduling class
(`kernel/sched/energy.c`): a shallow embedding of its run-queue
accounting, task-ring rotation, RAPL counter arithmetic, thread
distribution and class-switching logic, together with proofs of the
documented properties.

Machine integers are embedded as `Nat` (or `Int` where signedness
matters) with explicit reductions modulo `2^32` / `2^64` at the points
where the C code can overflow.
-/

namespace Energy

/-- Constant `THREAD_SCHED_SLICE`: the default scheduling slice for one thread,
10 ms in nanoseconds. -/
def THREAD_SCHED_SLICE : Nat := 10000000

/-- Constant `U32_MAX` as in `include/linux/limits.h`: `2^32 - 1`. -/
def U32_MAX : Nat := 4294967295

/-- Modulus of `u32` arithmetic. -/
def U32_MOD : Nat := 4294967296

/-- Modulus of `u64` / `unsigned long` arithmetic. -/
def U64_MOD : Nat := 18446744073709551616

/-! ### Wrap-aware counter difference (`__diff_wa`)

The RAPL counters are 32 bits wide and wrap.  `__diff_wa` is embedded
over `Int` (with the arguments ranged over `[0, U32_MAX]`) so that the
absence of a negative result is a meaningful statement. -/

/-- Function `__diff_wa(first, second)`: wrap-aware difference of two `u32`
counter readings. -/
def __diff_wa (first second : Int) : Int :=
  if first < second then ((U32_MAX : Int) - second) + first
  else first - second

/-! ### RAPL counter accounting (`__update_rapl_counter`)

`gri.update_interval` and `gri.unit` are global calibration constants in
the C code; they are passed explicitly here.  `*value` is a `u64`
accumulator, `consumption`, `loop_duration`, `avg_loop_consumption` and
the intermediate products are `u32`. -/

/-- Function `__update_rapl_counter(value, consumption, loop_duration,
avg_loop_consumption)` with the globals `gri.update_interval` and
`gri.unit` passed explicitly: subtract the calibrated self-consumption
of the sampling loop from the raw counter delta (floored at zero) and
accumulate the remainder scaled by the energy unit. -/
def __update_rapl_counter (value consumption loop_duration avg_loop_consumption
    update_interval unit : Nat) : Nat :=
  let loop_consumption := ((avg_loop_consumption * loop_duration) % U32_MOD) / update_interval
  let final_consumption := if consumption < loop_consumption then 0
    else consumption - loop_consumption
  (value + (final_consumption * unit) % U32_MOD) % U64_MOD

/-! ### Energy tasks and the global run queue

`struct energy_task` is reduced to the fields the global accounting and
the rotation inspect: `state` (`0` or `ETASK_RUNNING = 1`) and
`nr_runnable`.  The global run queue `grq` keeps the ring of tasks and
the total thread count. -/

/-- An energy task as seen by the global run queue: its run `state`
(`0` idle, `ETASK_RUNNING` otherwise) and its count of runnable
threads. -/
structure energy_task where
  state : Nat
  nr_runnable : Nat
  deriving DecidableEq

/-- The candidate test of `pick_next_energy_task`: not running and with
at least one runnable thread. -/
def pickable (t : energy_task) : Bool :=
  t.state = 0 && t.nr_runnable != 0

/-- The rotation loop body of `pick_next_energy_task`: look at the head
of the ring, rotate it to the tail (`list_rotate_left`), and return the
head if it passes the candidate test; the fuel is the number of list
elements still to examine (the C loop stops when the rotation returns
to the originally first task). -/
def pick_next_aux : Nat → List energy_task → Option energy_task × List energy_task
  | 0, ts => (none, ts)
  | _ + 1, [] => (none, [])
  | n + 1, t :: rest =>
    if pickable t then (some t, rest ++ [t])
    else pick_next_aux n (rest ++ [t])

/-- Function `pick_next_energy_task()` on the ring `grq.tasks`: one full rotation
at most, returning the first not-running task with runnable threads
(left at the tail of the rotated ring) or `none`. -/
def pick_next_energy_task (ts : List energy_task) :
    Option energy_task × List energy_task :=
  pick_next_aux ts.length ts

/-- The counting state of the global run queue `grq`: one entry of
`tasks` per energy task holding that task's `nr_runnable`, plus the
global `nr_threads`. -/
structure global_rq where
  tasks : List Nat
  nr_threads : Nat
  deriving DecidableEq

/-- Initialisation `init_grq()`: no tasks, no threads. -/
def init_grq : global_rq := ⟨[], 0⟩

/-- The global-run-queue operations that touch the thread accounting:
creating a task (`create_energy_task`), enqueueing a thread into a task
(`enqueue_runnable`), dequeueing one (`dequeue_runnable`), and freeing
an empty task (`free_energy_task`, guarded by `put_energy_task`).
Tasks are addressed by their position in `grq.tasks`. -/
inductive grq_op where
  | new_task : grq_op
  | enqueue : Nat → grq_op
  | dequeue : Nat → grq_op
  | free_task : Nat → grq_op
  deriving DecidableEq

/-- One global-run-queue operation.  `none` models the paths the C code
rejects with `BUG()` (enqueueing into or dequeueing from a task that
does not exist, dequeueing a thread that is not queued — i.e. from a
task with no runnable threads) or never takes (`free_energy_task` runs
only when `nr_runnable == 0`). -/
def grq_step (s : global_rq) : grq_op → Option global_rq
  | .new_task => some ⟨0 :: s.tasks, s.nr_threads⟩
  | .enqueue i =>
    if i < s.tasks.length then
      some ⟨s.tasks.set i (s.tasks.getD i 0 + 1), s.nr_threads + 1⟩
    else none
  | .dequeue i =>
    if i < s.tasks.length then
      if 0 < s.tasks.getD i 0 then
        some ⟨s.tasks.set i (s.tasks.getD i 0 - 1), s.nr_threads - 1⟩
      else none
    else none
  | .free_task i =>
    if i < s.tasks.length then
      if s.tasks.getD i 0 = 0 then some ⟨s.tasks.eraseIdx i, s.nr_threads⟩
      else none
    else none

/-- Run a sequence of global-run-queue operations. -/
def grq_run : global_rq → List grq_op → Option global_rq
  | s, [] => some s
  | s, op :: ops =>
    match grq_step s op with
    | none => none
    | some s' => grq_run s' ops

/-- The documented invariant of the global run queue: the total thread
count equals the sum of the per-task runnable counts. -/
def grq_invariant (s : global_rq) : Prop :=
  s.nr_threads = s.tasks.sum

/-! ### Per-CPU run queues

`struct e_rq` embedded in `struct rq`, reduced to the fields the
verified operations read and write: the host-visible `rq->nr_running`,
and `en.nr_runnable`, `en.nr_assigned`, `en.blocked`,
`en.curr_e_task`. -/

/-- The per-CPU energy run queue `struct e_rq` (counting state). -/
structure e_rq_state where
  nr_runnable : Nat
  nr_assigned : Nat
  blocked : Bool
  curr_e_task : Option energy_task
  deriving DecidableEq

/-- A CPU run queue `struct rq`: the host's visible load counter plus
the embedded energy run queue. -/
structure rq_state where
  nr_running : Nat
  en : e_rq_state
  deriving DecidableEq

/-- Function `__inc_nr_running(rq)`: bump the host load counter only when the
CPU is not blocked; always bump `en.nr_assigned`. -/
def __inc_nr_running (rq : rq_state) : rq_state :=
  { rq with
    nr_running := if rq.en.blocked then rq.nr_running else rq.nr_running + 1,
    en := { rq.en with nr_assigned := rq.en.nr_assigned + 1 } }

/-- Function `__dec_nr_running(rq)`: drop the host load counter only when the
CPU is not blocked; always drop `en.nr_assigned`. -/
def __dec_nr_running (rq : rq_state) : rq_state :=
  { rq with
    nr_running := if rq.en.blocked then rq.nr_running else rq.nr_running - 1,
    en := { rq.en with nr_assigned := rq.en.nr_assigned - 1 } }

/-- Function `__acquire_cpu(rq)`: unblock the CPU and add its whole assignment
count to the host load counter in one locked step. -/
def __acquire_cpu (rq : rq_state) : rq_state :=
  { rq with
    nr_running := rq.nr_running + rq.en.nr_assigned,
    en := { rq.en with blocked := false } }

/-- Function `__release_cpu(rq)`: block the CPU and subtract its whole
assignment count from the host load counter in one locked step. -/
def __release_cpu (rq : rq_state) : rq_state :=
  { rq with
    nr_running := rq.nr_running - rq.en.nr_assigned,
    en := { rq.en with blocked := true } }

/-- This scheduling class's contribution to the host's visible load
counter: `en.nr_assigned` while unblocked, `0` while blocked. -/
def en_contribution (rq : rq_state) : Nat :=
  if rq.en.blocked then 0 else rq.en.nr_assigned

/-- The per-CPU load-accounting correspondence: the host's counter is
the foreign (unmanaged) load plus this class's contribution. -/
def load_invariant (rq : rq_state) (foreign : Nat) : Prop :=
  rq.nr_running = foreign + en_contribution rq

/-- The loop body of `release_cpus`: block a CPU only when it is
unblocked and its visible host load exactly equals its own assignment
count. -/
def release_cpu_step (rq : rq_state) : rq_state :=
  if rq.en.blocked = false ∧ rq.nr_running = rq.en.nr_assigned then __release_cpu rq
  else rq

/-- Function `release_cpus(domain)`: apply the guarded release to every CPU of
the domain. -/
def release_cpus (rqs : List rq_state) : List rq_state :=
  rqs.map release_cpu_step

/-! ### Scheduling slices -/

/-- Function `sched_slice_class()`: the class as a whole runs for one thread
slice per runnable thread in the system (`grq.nr_threads` passed
explicitly). -/
def sched_slice_class (nr_threads : Nat) : Nat :=
  nr_threads * THREAD_SCHED_SLICE

/-- Function `sched_slice_energy(e_task)`: one thread slice per runnable thread
of the task, `0` for `NULL`. -/
def sched_slice_energy : Option energy_task → Nat
  | none => 0
  | some e_task => e_task.nr_runnable * THREAD_SCHED_SLICE

/-- Function `sched_slice_local(rq)`: the current task's slice divided equally
among the threads queued on this CPU, or the task slice itself when
none are queued here. -/
def sched_slice_local (rq : rq_state) : Nat :=
  if rq.en.nr_runnable = 0 then sched_slice_energy rq.en.curr_e_task
  else sched_slice_energy rq.en.curr_e_task / rq.en.nr_runnable

/-! ### The class-entry decision (`should_switch_to_energy`)

`nr_running()` in the host kernel is the system-wide sum of every CPU's
`rq->nr_running`; the state below keeps the per-CPU host loads so that
both that sum and the invoking CPU's own load are expressible.  The
clocks are `u64`. -/

/-- The snapshot `should_switch_to_energy` reads: the per-CPU host
loads (`hostLoads`, summed by `nr_running()`), the index of the
invoking CPU, its `en.nr_assigned`, and the globals `grq.nr_threads`,
`rq_clock(rq)` (`now`) and `grq.stop_running`. -/
structure switch_state where
  hostLoads : List Nat
  thisCpu : Nat
  nrAssigned : Nat
  nrThreads : Nat
  now : Nat
  stopRunning : Nat
  deriving DecidableEq

/-- Function `nr_running()`: the host's total runnable count (a `u64` sum). -/
def nr_running_total (s : switch_state) : Nat :=
  s.hostLoads.sum % U64_MOD

/-- Plain `u64` wrap-around subtraction `a - b` (for `a < U64_MOD`). -/
def u64_sub (a b : Nat) : Nat :=
  (a + (U64_MOD - b % U64_MOD)) % U64_MOD

/-- Function `sched_slice_other()`: `(nr_running() - grq.nr_threads) *
THREAD_SCHED_SLICE` in wrapping `u64` arithmetic. -/
def sched_slice_other (s : switch_state) : Nat :=
  (u64_sub (nr_running_total s) s.nrThreads * THREAD_SCHED_SLICE) % U64_MOD

/-- Function `should_switch_to_energy(rq)` exactly as the C code orders its
branches; the last branch clamps `now - grq.stop_running` at zero and
compares it against `sched_slice_other()`. -/
def should_switch_to_energy (s : switch_state) : Bool :=
  if s.nrThreads = 0 then false
  else if nr_running_total s = s.nrThreads then true
  else if nr_running_total s = s.nrAssigned then true
  else if nr_running_total s = 0 then true
  else
    let not_running := if s.now ≤ s.stopRunning then 0 else s.now - s.stopRunning
    decide (sched_slice_other s < not_running)

/-- The entry decision as the specification words it (for comparison
with `should_switch_to_energy`): its third branch compares *this CPU's*
host load with this CPU's assignment count, and its last branch uses
exact integer arithmetic for the proportional slice. -/
def should_switch_to_energy_spec (s : switch_state) : Bool :=
  if s.nrThreads = 0 then false
  else if nr_running_total s = s.nrThreads then true
  else if s.hostLoads.getD s.thisCpu 0 = s.nrAssigned then true
  else if nr_running_total s = 0 then true
  else
    let not_running : Int := if s.now ≤ s.stopRunning then 0 else (s.now : Int) - s.stopRunning
    decide (((nr_running_total s : Int) - s.nrThreads) * THREAD_SCHED_SLICE < not_running)

/-! ### Thread distribution (`__distribute_energy_task`)

A thread carries its CPU-queued flag, its present CPU (`task_rq`) and
its allowed-CPU set (`cpus_allowed`).  The per-CPU `en.nr_runnable`
counts are a function from CPU ids; `for_each_cpu_and` enumerates the
domain in order, filtered by the allowed set. -/

/-- A thread as the distribution step sees it. -/
structure e_thread where
  cpu_queued : Bool
  cpu : Nat
  allowed : List Nat
  deriving DecidableEq

/-- One step of the best-CPU scan: keep the new CPU only when its load
is strictly smaller than the best one so far. -/
def min_load_pick (load : Nat → Nat) (best c : Nat) : Nat :=
  if load c < load best then c else best

/-- The inner loop of `__distribute_energy_task`: starting from the
thread's present CPU, take the first CPU of `domain ∩ allowed` whose
load is strictly smaller than the best so far. -/
def best_cpu (domain : List Nat) (t : e_thread) (load : Nat → Nat) : Nat :=
  (domain.filter (fun c => t.allowed.contains c)).foldl (min_load_pick load) t.cpu

/-- Account one placement: the destination CPU's `en.nr_runnable` grows
by one (`enqueue_running` via `distribute_local_task`). -/
def place (load : Nat → Nat) (c : Nat) : Nat → Nat :=
  fun x => if x = c then load x + 1 else load x

/-- Function `__distribute_energy_task`: walk the task's runnable threads,
skipping the ones already queued on a CPU, placing each other one on
its best CPU and updating that CPU's load before the next thread.
Returns the per-thread placements (`none` = skipped) and the final
loads. -/
def __distribute_energy_task (domain : List Nat) :
    List e_thread → (Nat → Nat) → List (Option Nat) × (Nat → Nat)
  | [], load => ([], load)
  | t :: rest, load =>
    if t.cpu_queued then
      let r := __distribute_energy_task domain rest load
      (none :: r.1, r.2)
    else
      let c := best_cpu domain t load
      let r := __distribute_energy_task domain rest (place load c)
      (some c :: r.1, r.2)

/-! ### The control surface (`do_start_energy`)

`find_task_by_vpid` and the per-thread outcome of
`sched_setscheduler_nocheck` are host collaborators: they are passed in
as an environment.  A process stands for its thread-group leader with
the list of its threads' switch results (`0` = success, negative =
`-ERROR`). -/

/-- A resolved process: the switch result for each of its threads, in
`for_each_thread` order. -/
structure process where
  thread_results : List Int
  deriving DecidableEq

/-- Function `do_start_energy(pid)`: reject negative pids with `-EINVAL` (-22);
resolve pid 0 to the caller (`current`), other pids through the pid
table; `-ESRCH` (-3) when nothing resolves; otherwise attempt the
policy switch on every thread, keeping the most recent result. -/
def do_start_energy (pid : Int) (lookup : Int → Option process)
    (current : process) : Int :=
  if pid < 0 then -22
  else
    match (if pid = 0 then some current else lookup pid) with
    | none => -3
    | some task => task.thread_results.foldl (fun _ r => r) (-3)

/-- The first failing per-thread switch result, if any (the return
value the specification claims for `do_start_energy`). -/
def first_failure (results : List Int) : Option Int :=
  results.find? (fun r => r != 0)

/-!
## Theorems
-/

/-- Claim C4: for `u32` readings, `__diff_wa(current, previous)` is
`(U32_MAX - previous) + current` when the counter wrapped
(`current < previous`), the plain difference otherwise, and in both
cases a non-negative number that still fits in 32 bits. -/
theorem diff_wa_wrap_safe (first second : Int)
    (h0 : 0 ≤ first) (h1 : first ≤ (U32_MAX : Nat))
    (h2 : 0 ≤ second) (h3 : second ≤ (U32_MAX : Nat)) :
    (first < second → __diff_wa first second = ((U32_MAX : Int) - second) + first) ∧
    (second ≤ first → __diff_wa first second = first - second) ∧
    0 ≤ __diff_wa first second ∧ __diff_wa first second ≤ (U32_MAX : Nat) := by
  simp only [__diff_wa, U32_MAX] at *
  split <;> refine ⟨fun hw => ?_, fun hw => ?_, ?_, ?_⟩ <;> omega

/-- Witness for C4: a wrapped pair of readings. -/
theorem diff_wa_wrap_safe_witness :
    ((5 : Int) < 4000000000 → __diff_wa 5 4000000000 = ((U32_MAX : Int) - 4000000000) + 5) ∧
    ((4000000000 : Int) ≤ 5 → __diff_wa 5 4000000000 = 5 - 4000000000) ∧
    0 ≤ __diff_wa 5 4000000000 ∧ __diff_wa 5 4000000000 ≤ (U32_MAX : Nat) :=
  diff_wa_wrap_safe 5 4000000000 (by norm_num) (by norm_num [U32_MAX])
    (by norm_num) (by norm_num [U32_MAX])

/-- Claim C3: with calibrated loop energy 5 units/iteration, interval
1000 µs, elapsed 2500 µs and raw delta 100, `__update_rapl_counter`
subtracts `(5*2500)/1000 = 12` and accumulates `88 * unit`; and
whenever the computed self-consumption exceeds the raw delta, the
accumulator does not move (the net is floored at zero, never
negative). -/
theorem update_rapl_counter_accounting :
    (∀ value unit : Nat,
      __update_rapl_counter value 100 2500 5 1000 unit
        = (value + (88 * unit) % U32_MOD) % U64_MOD) ∧
    (((5 * 2500) % U32_MOD) / 1000 = 12) ∧
    (∀ value consumption loop_duration avg_loop_consumption update_interval unit : Nat,
      consumption < ((avg_loop_consumption * loop_duration) % U32_MOD) / update_interval →
      __update_rapl_counter value consumption loop_duration avg_loop_consumption
        update_interval unit = value % U64_MOD) := by
  refine ⟨fun value unit => ?_, by norm_num [U32_MOD], fun v c d a i u h => ?_⟩
  · simp only [__update_rapl_counter, U32_MOD, U64_MOD]
    norm_num
  · simp only [__update_rapl_counter, if_pos h]
    simp

/-- Witness for C3: a state where the self-consumption estimate
exceeds the raw delta and the accumulator stays put. -/
theorem update_rapl_counter_accounting_witness :
    __update_rapl_counter 7 0 10 1 1 61 = 7 % U64_MOD :=
  update_rapl_counter_accounting.2.2 7 0 10 1 1 61 (by norm_num [U32_MOD])

/-- Claim C8: the class slice is the quantum times the global thread
count, a task's slice is the quantum times its runnable count (`0` for
`NULL`), and the local slice is the current task's slice divided by the
local thread count, or the task slice itself when none are queued
locally. -/
theorem sched_slice_formulas :
    (∀ nr_threads : Nat,
      sched_slice_class nr_threads = THREAD_SCHED_SLICE * nr_threads) ∧
    (sched_slice_energy none = 0) ∧
    (∀ t : energy_task,
      sched_slice_energy (some t) = THREAD_SCHED_SLICE * t.nr_runnable) ∧
    (∀ rq : rq_state, rq.en.nr_runnable = 0 →
      sched_slice_local rq = sched_slice_energy rq.en.curr_e_task) ∧
    (∀ rq : rq_state, rq.en.nr_runnable ≠ 0 →
      sched_slice_local rq = sched_slice_energy rq.en.curr_e_task / rq.en.nr_runnable) := by
  refine ⟨fun n => Nat.mul_comm n _, rfl, fun t => Nat.mul_comm _ _,
    fun rq h => ?_, fun rq h => ?_⟩
  · simp [sched_slice_local, h]
  · simp [sched_slice_local, h]

/-- Witness for C8: both local-slice cases at concrete run queues. -/
theorem sched_slice_formulas_witness :
    sched_slice_local ⟨0, ⟨0, 0, false, some ⟨0, 3⟩⟩⟩
      = sched_slice_energy (some ⟨0, 3⟩) ∧
    sched_slice_local ⟨0, ⟨2, 0, false, some ⟨0, 3⟩⟩⟩
      = sched_slice_energy (some ⟨0, 3⟩) / 2 :=
  ⟨sched_slice_formulas.2.2.2.1 ⟨0, ⟨0, 0, false, some ⟨0, 3⟩⟩⟩ rfl,
   sched_slice_formulas.2.2.2.2 ⟨0, ⟨2, 0, false, some ⟨0, 3⟩⟩⟩ (by decide)⟩

/-- Claim C6: `release_cpus` blocks a CPU exactly when it is currently
unblocked and its visible host load equals its own assignment count; a
CPU whose load is its assignment count plus one (one foreign thread)
is left untouched, hence unblocked; and `release_cpus` is this guarded
step applied to every domain CPU. -/
theorem release_cpus_blocks_only_exact (rq : rq_state) :
    (((release_cpu_step rq).en.blocked = true ∧ rq.en.blocked = false) ↔
      (rq.en.blocked = false ∧ rq.nr_running = rq.en.nr_assigned)) ∧
    (rq.nr_running = rq.en.nr_assigned + 1 → release_cpu_step rq = rq) ∧
    (∀ rqs : List rq_state, release_cpus rqs = rqs.map release_cpu_step) := by
  refine ⟨?_, fun hplus => ?_, fun rqs => rfl⟩
  · unfold release_cpu_step __release_cpu
    split
    · rename_i h
      exact ⟨fun _ => h, fun _ => ⟨rfl, h.1⟩⟩
    · rename_i h
      constructor
      · rintro ⟨hb, hnb⟩
        exact absurd (hb.symm.trans hnb) (by simp)
      · intro hc
        exact absurd hc h
  · unfold release_cpu_step
    rw [if_neg]
    rintro ⟨-, heq⟩
    omega

/-- Claim C10: per CPU, this class's contribution to the host's load
counter is `en.nr_assigned` when unblocked and `0` when blocked, and
each of `__inc_nr_running`, `__dec_nr_running`, `__acquire_cpu` (from a
blocked CPU) and `__release_cpu` (from an unblocked CPU) preserves that
correspondence against a fixed foreign load. -/
theorem nr_running_contribution_invariant (rq : rq_state) (foreign : Nat)
    (h : load_invariant rq foreign) :
    load_invariant (__inc_nr_running rq) foreign ∧
    (1 ≤ rq.en.nr_assigned → load_invariant (__dec_nr_running rq) foreign) ∧
    (rq.en.blocked = true → load_invariant (__acquire_cpu rq) foreign) ∧
    (rq.en.blocked = false → load_invariant (__release_cpu rq) foreign) := by
  obtain ⟨n, nr, na, b, ce⟩ := rq
  simp only [load_invariant, en_contribution, __inc_nr_running, __dec_nr_running,
    __acquire_cpu, __release_cpu] at h ⊢
  cases b <;> (simp_all; try omega)

/-- Witness for C6: an unblocked CPU with two assigned threads and one
foreign thread (visible load 3) is left exactly as it is. -/
theorem release_cpus_blocks_only_exact_witness :
    release_cpu_step ⟨3, ⟨0, 2, false, none⟩⟩ = ⟨3, ⟨0, 2, false, none⟩⟩ :=
  (release_cpus_blocks_only_exact ⟨3, ⟨0, 2, false, none⟩⟩).2.1 rfl

/-- Witness for C10: a CPU with load 3 = 1 foreign + 2 assigned,
unblocked. -/
theorem nr_running_contribution_invariant_witness :
    load_invariant (__inc_nr_running ⟨3, ⟨0, 2, false, none⟩⟩) 1 ∧
    (1 ≤ (⟨3, ⟨0, 2, false, none⟩⟩ : rq_state).en.nr_assigned →
      load_invariant (__dec_nr_running ⟨3, ⟨0, 2, false, none⟩⟩) 1) ∧
    ((⟨3, ⟨0, 2, false, none⟩⟩ : rq_state).en.blocked = true →
      load_invariant (__acquire_cpu ⟨3, ⟨0, 2, false, none⟩⟩) 1) ∧
    ((⟨3, ⟨0, 2, false, none⟩⟩ : rq_state).en.blocked = false →
      load_invariant (__release_cpu ⟨3, ⟨0, 2, false, none⟩⟩) 1) :=
  nr_running_contribution_invariant ⟨3, ⟨0, 2, false, none⟩⟩ 1 rfl

/-- The rotation examines the first `n` ring entries in order: it
returns `none` exactly when none of them passes the candidate test. -/
theorem pick_next_aux_none_iff :
    ∀ (n : Nat) (ts : List energy_task), n ≤ ts.length →
      ((pick_next_aux n ts).1 = none ↔
        ∀ t ∈ ts.take n, ¬(t.state = 0 ∧ t.nr_runnable ≠ 0)) := by
  intro n
  induction n with
  | zero => intro ts _; simp [pick_next_aux]
  | succ m ih =>
    intro ts hlen
    match ts with
    | [] => simp at hlen
    | t :: rest =>
      rw [List.take_succ_cons]
      by_cases hp : pickable t = true
      · have hprop : t.state = 0 ∧ t.nr_runnable ≠ 0 := by
          simpa [pickable] using hp
        simp only [pick_next_aux, hp, if_true, List.mem_cons, forall_eq_or_imp]
        constructor
        · intro h; cases h
        · intro h; exact absurd hprop h.1
      · have hprop : ¬(t.state = 0 ∧ t.nr_runnable ≠ 0) := by
          simpa [pickable] using hp
        have hm : m ≤ rest.length := by
          simpa using Nat.le_of_succ_le_succ hlen
        have htake : (rest ++ [t]).take m = rest.take m :=
          List.take_append_of_le_length hm
        have hrec := ih (rest ++ [t]) (by simp; omega)
        rw [htake] at hrec
        simp only [pick_next_aux, hp, Bool.false_eq_true, ite_false]
        rw [hrec]
        simp only [List.mem_cons, forall_eq_or_imp]
        exact ⟨fun h => ⟨hprop, h⟩, fun h => h.2⟩

/-- When the rotation returns a task, that task sits at the tail of
the rotated ring, so the next scan starts right after it. -/
theorem pick_next_aux_some_last :
    ∀ (n : Nat) (ts ts' : List energy_task) (t : energy_task),
      pick_next_aux n ts = (some t, ts') → ts'.getLast? = some t := by
  intro n
  induction n with
  | zero => intro ts ts' t h; simp [pick_next_aux] at h
  | succ m ih =>
    intro ts ts' t h
    match ts with
    | [] => simp [pick_next_aux] at h
    | u :: rest =>
      by_cases hp : pickable u = true
      · simp only [pick_next_aux, hp, if_true, Prod.mk.injEq, Option.some.injEq] at h
        obtain ⟨h1, h2⟩ := h
        subst h1
        subst h2
        simp
      · simp only [pick_next_aux, hp, Bool.false_eq_true, ite_false] at h
        exact ih _ _ _ h

/-- Claim C2: on the ring `[A(idle,0), B(idle,2), C(running,3)]` the
rotation returns `B` and leaves it at the ring's tail; calling again on
the unchanged state returns `B` again; after `B` is marked running a
further call returns `none` with the ring unchanged by the full
rotation; and in general the rotation returns `none` exactly when no
ring entry is simultaneously not-running and non-empty, while a
returned task always ends at the ring's tail (the next scan starts
after it). -/
theorem pick_next_energy_task_rotation :
    (pick_next_energy_task [⟨0, 0⟩, ⟨0, 2⟩, ⟨1, 3⟩]
      = (some ⟨0, 2⟩, [⟨1, 3⟩, ⟨0, 0⟩, ⟨0, 2⟩])) ∧
    (pick_next_energy_task [⟨1, 3⟩, ⟨0, 0⟩, ⟨0, 2⟩]
      = (some ⟨0, 2⟩, [⟨1, 3⟩, ⟨0, 0⟩, ⟨0, 2⟩])) ∧
    (pick_next_energy_task [⟨1, 3⟩, ⟨0, 0⟩, ⟨1, 2⟩]
      = (none, [⟨1, 3⟩, ⟨0, 0⟩, ⟨1, 2⟩])) ∧
    (∀ ts : List energy_task, (pick_next_energy_task ts).1 = none ↔
      ∀ t ∈ ts, ¬(t.state = 0 ∧ t.nr_runnable ≠ 0)) ∧
    (∀ (ts ts' : List energy_task) (t : energy_task),
      pick_next_energy_task ts = (some t, ts') → ts'.getLast? = some t) := by
  refine ⟨rfl, rfl, rfl, fun ts => ?_, fun ts ts' t h => ?_⟩
  · have h := pick_next_aux_none_iff ts.length ts le_rfl
    rwa [List.take_length] at h
  · exact pick_next_aux_some_last ts.length ts ts' t h

/-- Replacing the `i`-th entry of a list of counts moves its sum by
the difference of the new and the old entry. -/
theorem sum_set_getD : ∀ (l : List Nat) (i v : Nat), i < l.length →
    (l.set i v).sum + l.getD i 0 = l.sum + v := by
  intro l
  induction l with
  | nil => intro i v h; simp at h
  | cons x xs ih =>
    intro i v h
    cases i with
    | zero => simp [List.set]; omega
    | succ j =>
      have hj : j < xs.length := by simpa using h
      have hrec := ih j v hj
      simp [List.set, List.getD] at hrec ⊢
      omega

/-- Removing the `i`-th entry of a list of counts removes exactly that
entry from the sum. -/
theorem sum_eraseIdx_getD : ∀ (l : List Nat) (i : Nat), i < l.length →
    (l.eraseIdx i).sum + l.getD i 0 = l.sum := by
  intro l
  induction l with
  | nil => intro i h; simp at h
  | cons x xs ih =>
    intro i h
    cases i with
    | zero => simp [List.eraseIdx]; omega
    | succ j =>
      have hj : j < xs.length := by simpa using h
      have hrec := ih j hj
      simp [List.eraseIdx, List.getD] at hrec ⊢
      omega

/-- One global-run-queue operation keeps the thread-count invariant. -/
theorem grq_step_preserves (s s' : global_rq) (op : grq_op)
    (hinv : grq_invariant s) (hstep : grq_step s op = some s') :
    grq_invariant s' := by
  cases op with
  | new_task =>
    obtain rfl := Option.some.inj hstep
    simpa [grq_invariant] using hinv
  | enqueue i =>
    simp only [grq_step] at hstep
    split at hstep
    · rename_i h
      obtain rfl := Option.some.inj hstep
      have hsum := sum_set_getD s.tasks i (s.tasks.getD i 0 + 1) h
      simp only [grq_invariant] at hinv ⊢
      omega
    · exact absurd hstep (by simp)
  | dequeue i =>
    simp only [grq_step] at hstep
    split at hstep
    · rename_i h
      split at hstep
      · rename_i hpos
        obtain rfl := Option.some.inj hstep
        have hsum := sum_set_getD s.tasks i (s.tasks.getD i 0 - 1) h
        simp only [grq_invariant] at hinv ⊢
        omega
      · exact absurd hstep (by simp)
    · exact absurd hstep (by simp)
  | free_task i =>
    simp only [grq_step] at hstep
    split at hstep
    · rename_i h
      split at hstep
      · rename_i hzero
        obtain rfl := Option.some.inj hstep
        have hsum := sum_eraseIdx_getD s.tasks i h
        simp only [grq_invariant] at hinv ⊢
        omega
      · exact absurd hstep (by simp)
    · exact absurd hstep (by simp)

/-- Any successful run of operations from an invariant state ends in
an invariant state. -/
theorem grq_run_preserves : ∀ (ops : List grq_op) (s s' : global_rq),
    grq_invariant s → grq_run s ops = some s' → grq_invariant s' := by
  intro ops
  induction ops with
  | nil =>
    intro s s' hinv hrun
    obtain rfl := Option.some.inj hrun
    exact hinv
  | cons op rest ih =>
    intro s s' hinv hrun
    simp only [grq_run] at hrun
    match hstep : grq_step s op with
    | none => rw [hstep] at hrun; exact absurd hrun (by simp)
    | some s1 =>
      rw [hstep] at hrun
      exact ih s1 s' (grq_step_preserves s s1 op hinv hstep) hrun

/-- Claim C1: every state of the global run queue reachable from the
initial state by task creation/removal and `enqueue_runnable` /
`dequeue_runnable` operations — in particular the state after every
single enqueue or dequeue — satisfies `grq.nr_threads` = sum over all
energy tasks of their `nr_runnable`. -/
theorem grq_thread_count_invariant (ops : List grq_op) (s : global_rq)
    (h : grq_run init_grq ops = some s) :
    s.nr_threads = s.tasks.sum :=
  grq_run_preserves ops init_grq s rfl h

/-- Witness for C1: two tasks, three enqueues, one dequeue. -/
theorem grq_thread_count_invariant_witness :
    (⟨[1, 1], 2⟩ : global_rq).nr_threads = (⟨[1, 1], 2⟩ : global_rq).tasks.sum :=
  grq_thread_count_invariant
    [grq_op.new_task, grq_op.enqueue 0, grq_op.new_task, grq_op.enqueue 0,
     grq_op.enqueue 1, grq_op.dequeue 1]
    ⟨[1, 1], 2⟩ (by decide)

/-- The best-CPU scan returns its start or a list element, never loads
more than the start, and never loads more than any list element. -/
theorem foldl_min_load (load : Nat → Nat) :
    ∀ (l : List Nat) (acc : Nat),
      (l.foldl (min_load_pick load) acc = acc ∨ l.foldl (min_load_pick load) acc ∈ l) ∧
      load (l.foldl (min_load_pick load) acc) ≤ load acc ∧
      ∀ d ∈ l, load (l.foldl (min_load_pick load) acc) ≤ load d := by
  intro l
  induction l with
  | nil => intro acc; simp
  | cons c tl ih =>
    intro acc
    rw [List.foldl_cons]
    obtain ⟨hmem, hacc, hall⟩ := ih (min_load_pick load acc c)
    have hle : load (min_load_pick load acc c) ≤ load acc := by
      unfold min_load_pick; split <;> omega
    have hlec : load (min_load_pick load acc c) ≤ load c := by
      unfold min_load_pick; split <;> omega
    refine ⟨?_, le_trans hacc hle, ?_⟩
    · by_cases hc : load c < load acc
      · have hstep : min_load_pick load acc c = c := by
          unfold min_load_pick; exact if_pos hc
        rw [hstep] at hmem ⊢
        rcases hmem with h | h
        · right
          rw [h]
          exact List.mem_cons_self c tl
        · right
          exact List.mem_cons_of_mem c h
      · have hstep : min_load_pick load acc c = acc := by
          unfold min_load_pick; exact if_neg hc
        rw [hstep] at hmem ⊢
        rcases hmem with h | h
        · left
          exact h
        · right
          exact List.mem_cons_of_mem c h
    · intro d hd
      rcases List.mem_cons.mp hd with rfl | hd
      · exact le_trans hacc hlec
      · exact hall d hd

/-- Ties keep the starting candidate: when no scanned CPU has a load
strictly below the start's, the scan returns the start. -/
theorem foldl_min_load_ties (load : Nat → Nat) :
    ∀ (l : List Nat) (acc : Nat), (∀ d ∈ l, load acc ≤ load d) →
      l.foldl (min_load_pick load) acc = acc := by
  intro l
  induction l with
  | nil => intro acc _; rfl
  | cons c tl ih =>
    intro acc h
    rw [List.foldl_cons]
    have hacc : min_load_pick load acc c = acc := by
      unfold min_load_pick
      rw [if_neg]
      exact Nat.not_lt.mpr (h c (List.mem_cons_self c tl))
    rw [hacc]
    exact ih acc fun d hd => h d (List.mem_cons_of_mem c hd)

/-- Counterexample to C5 as stated: a not-yet-assigned thread whose
present CPU (2) lies outside the domain `{0, 1}` but carries the
strictly smallest load is left on CPU 2 by `__distribute_energy_task`,
not placed on the minimum-load CPU of domain ∩ allowed. -/
theorem __distribute_energy_task_counterexample :
    (__distribute_energy_task [0, 1] [⟨false, 2, [0, 1, 2]⟩]
      (fun c => if c = 0 then 2 else 0)).1 = [some 2] ∧
    (2 : Nat) ∉ ([0, 1] : List Nat) := by
  constructor
  · rfl
  · decide

/-- Claim C5 (amended): `__distribute_energy_task` skips every thread
already queued on a CPU; each other thread goes to the minimum-load CPU
among the thread's present CPU together with domain ∩ allowed — the
present CPU keeps all ties, so the placement is only guaranteed to lie
in domain ∩ allowed when some CPU there beats the present one — and
each placement bumps the destination's load before the next thread is
considered: with domain loads `{CPU0: 2, CPU1: 0}` two fresh threads
allowed on both go to CPU1 and CPU1 again (against its updated load 1),
leaving both CPUs at load 2. -/
theorem __distribute_energy_task_min_load :
    (∀ (domain : List Nat) (t : e_thread) (load : Nat → Nat),
      (best_cpu domain t load = t.cpu ∨
        best_cpu domain t load ∈ domain.filter (fun c => t.allowed.contains c)) ∧
      load (best_cpu domain t load) ≤ load t.cpu ∧
      ∀ d ∈ domain.filter (fun c => t.allowed.contains c),
        load (best_cpu domain t load) ≤ load d) ∧
    (∀ (domain : List Nat) (t : e_thread) (load : Nat → Nat),
      (∀ d ∈ domain.filter (fun c => t.allowed.contains c), load t.cpu ≤ load d) →
      best_cpu domain t load = t.cpu) ∧
    (∀ (domain : List Nat) (t : e_thread) (rest : List e_thread) (load : Nat → Nat),
      t.cpu_queued = true →
      __distribute_energy_task domain (t :: rest) load =
        ((none : Option Nat) :: (__distribute_energy_task domain rest load).1,
          (__distribute_energy_task domain rest load).2)) ∧
    ((__distribute_energy_task [0, 1] [⟨false, 0, [0, 1]⟩, ⟨false, 0, [0, 1]⟩]
        (fun c => if c = 0 then 2 else 0)).1 = [some 1, some 1] ∧
      (__distribute_energy_task [0, 1] [⟨false, 0, [0, 1]⟩, ⟨false, 0, [0, 1]⟩]
        (fun c => if c = 0 then 2 else 0)).2 0 = 2 ∧
      (__distribute_energy_task [0, 1] [⟨false, 0, [0, 1]⟩, ⟨false, 0, [0, 1]⟩]
        (fun c => if c = 0 then 2 else 0)).2 1 = 2) := by
  refine ⟨fun domain t load => foldl_min_load load _ t.cpu,
    fun domain t load h => foldl_min_load_ties load _ t.cpu h,
    fun domain t rest load h => ?_, rfl, rfl, rfl⟩
  simp [__distribute_energy_task, h]

/-- Counterexample to C7 as stated: two CPUs with host loads `[2, 1]`,
this CPU (0) with 2 assigned threads, 2 managed threads globally, and
the release clock in the future (no idle credit).  The specification's
third branch ("this CPU's host load equals its own assigned count")
fires, but the code compares the host's *total* `nr_running()` (= 3)
with the assigned count and ends up in the slice comparison, which
fails. -/
theorem should_switch_to_energy_counterexample :
    should_switch_to_energy ⟨[2, 1], 0, 2, 2, 5, 10⟩ = false ∧
    should_switch_to_energy_spec ⟨[2, 1], 0, 2, 2, 5, 10⟩ = true := by
  constructor
  · rfl
  · rfl

/-- Claim C7 (amended): `should_switch_to_energy` returns true iff the
global thread count is non-zero and (the host's total runnable count
equals the global thread count, or that *total* count equals this CPU's
own assigned count, or the host has zero runnable work, or the idle
time since control was last released — clamped at zero — exceeds
`sched_slice_other()`, the unmanaged-work slice computed with the
code's wrapping 64-bit subtraction `nr_running() - grq.nr_threads`
times the 10 ms quantum). -/
theorem should_switch_to_energy_branches (s : switch_state) :
    should_switch_to_energy s = true ↔
      (s.nrThreads ≠ 0 ∧
        (nr_running_total s = s.nrThreads ∨
         nr_running_total s = s.nrAssigned ∨
         nr_running_total s = 0 ∨
         sched_slice_other s <
           (if s.now ≤ s.stopRunning then 0 else s.now - s.stopRunning))) := by
  by_cases h0 : s.nrThreads = 0
  · simp [should_switch_to_energy, h0]
  · by_cases h1 : nr_running_total s = s.nrThreads
    · simp [should_switch_to_energy, h0, h1]
    · by_cases h2 : nr_running_total s = s.nrAssigned
      · simp [should_switch_to_energy, h0, h1, h2]
      · by_cases h3 : nr_running_total s = 0
        · simp [should_switch_to_energy, h0, h1, h2, h3]
        · simp [should_switch_to_energy, h0, h1, h2, h3]

/-- The per-thread loop of `do_start_energy` keeps only the most
recent switch result. -/
theorem foldl_keep_last : ∀ (l : List Int) (init : Int),
    l.foldl (fun _ r => r) init = l.getLastD init := by
  intro l
  induction l with
  | nil => intro init; rfl
  | cons x xs ih =>
    intro init
    rw [List.foldl_cons, ih x, List.getLastD_cons]

/-- Counterexample to C9 as stated: a process whose first thread fails
the policy switch (`-EPERM = -1`) while the second succeeds.  The
first per-thread failure is `-1`, but `do_start_energy` returns the
last attempt's result, `0`. -/
theorem do_start_energy_counterexample :
    do_start_energy 5 (fun p => if p = 5 then some ⟨[-1, 0]⟩ else none) ⟨[]⟩ = 0 ∧
    first_failure [-1, 0] = some (-1) ∧ (0 : Int) ≠ -1 := by
  refine ⟨rfl, rfl, by decide⟩

/-- Claim C9 (amended): `do_start_energy` rejects a negative pid with
`-EINVAL`; interprets pid 0 as the caller's own process; returns
`-ESRCH` when pid resolution finds nothing; and otherwise attempts the
policy switch on every thread of the resolved process in order,
best-effort, returning the result of the *last* attempt (a later
success masks an earlier failure). -/
theorem do_start_energy_last_result (lookup : Int → Option process)
    (current : process) (pid : Int) :
    (pid < 0 → do_start_energy pid lookup current = -22) ∧
    (do_start_energy 0 lookup current = current.thread_results.getLastD (-3)) ∧
    (0 ≤ pid → pid ≠ 0 → lookup pid = none →
      do_start_energy pid lookup current = -3) ∧
    (∀ task : process, 0 ≤ pid → pid ≠ 0 → lookup pid = some task →
      do_start_energy pid lookup current = task.thread_results.getLastD (-3)) := by
  refine ⟨fun h => ?_, ?_, fun h1 h2 h3 => ?_, fun task h1 h2 h3 => ?_⟩
  · simp [do_start_energy, h]
  · simp [do_start_energy, foldl_keep_last]
  · have hneg : ¬pid < 0 := by omega
    simp [do_start_energy, hneg, h2, h3]
  · have hneg : ¬pid < 0 := by omega
    simp [do_start_energy, hneg, h2, h3, foldl_keep_last]

end Energy
